import Mathlib

/-!
# Verification of the accbuilder vehicle-passport core

Shallow embedding of the canonicalize / hash / sign / verify sealing
pipeline, the VIN checksum validator, the DEKRA text extractors and the
dev storage upsert logic of the `accbuilder` repository, together with
proofs of the spec-level properties.

JSON-like runtime values are embedded as the inductive type `Json`
below; JavaScript numbers are modelled as rationals, strings as Lean
strings.  The external crypto primitives (`node:crypto` SHA-256,
ECDSA / RSA sign and verify) are not repository code and are passed in
as function parameters; collision resistance of SHA-256 is expressed as
an injectivity hypothesis where a theorem needs it.
-/

set_option maxHeartbeats 1000000

namespace Acc

/-- A JSON-like value (the values JavaScript passes around in this code
base): `null`, booleans, numbers (JS doubles modelled as `ℚ`), strings,
arrays and objects.  An object is a list of key/value pairs in insertion
order, as in a JS object literal. -/
inductive Json where
  | null : Json
  | bool (b : Bool) : Json
  | num (q : ℚ) : Json
  | str (s : String) : Json
  | arr (xs : List Json) : Json
  | obj (fields : List (String × Json)) : Json

namespace Json

/-- Field lookup, first occurrence, as JS property access on a plain
object built from unique keys. -/
def getField : Json → String → Option Json
  | .obj fs, k => (fs.find? (fun p => p.1 = k)).map (·.2)
  | _, _ => none

/-- Extract the string payload of a `Json.str`, `none` otherwise
(models a `typeof v === "string"` guard). -/
def asStr : Option Json → Option String
  | some (.str s) => some s
  | _ => none

/-- `{...rec}` followed by `delete payload[k]`: drop the binding of key
`k` from an object (other values are untouched, as `delete` on a
non-object property is a no-op). -/
def stripKey : Json → String → Json
  | .obj fs, k => .obj (fs.filter (fun p => p.1 ≠ k))
  | j, _ => j

/-- `{...draft, k: v}`: replace the binding of `k` in place if present,
else append it. -/
def setKey (fs : List (String × Json)) (k : String) (v : Json) : List (String × Json) :=
  if fs.any (fun p => p.1 = k) then fs.map (fun p => if p.1 = k then (k, v) else p)
  else fs ++ [(k, v)]

end Json

/-! ## Canonicalization (`src/utils/canonical.ts`, `src/server/app.ts`) -/

/-- Order on object entries used by `Object.keys(input).sort()`:
compare the keys. -/
def keyLe (p q : String × Json) : Prop := p.1 ≤ q.1

instance : DecidableRel keyLe := fun p q => inferInstanceAs (Decidable (p.1 ≤ q.1))

instance : IsTotal (String × Json) keyLe := ⟨fun p q => le_total p.1 q.1⟩

instance : IsTrans (String × Json) keyLe := ⟨fun _ _ _ h h' => le_trans h h'⟩

mutual

/-- `sortKeys` (`src/utils/canonical.ts` and the identical `canonicalize`
helper of `src/server/app.ts`): recursively sort object keys; arrays
keep their element order; primitives pass through.  (The source sorts
the keys first and then recurses into each value; here the values are
processed first and the pairs then sorted by key, which produces the
same object since the sort only examines keys.) -/
def sortKeys : Json → Json
  | .arr xs => .arr (sortKeysList xs)
  | .obj fs => .obj (List.insertionSort keyLe (sortKeysFields fs))
  | j => j

/-- `sortKeys` mapped over the elements of an array. -/
def sortKeysList : List Json → List Json
  | [] => []
  | x :: xs => sortKeys x :: sortKeysList xs

/-- `sortKeys` mapped over the values of an object's fields. -/
def sortKeysFields : List (String × Json) → List (String × Json)
  | [] => []
  | (k, v) :: fs => (k, sortKeys v) :: sortKeysFields fs

end

/-- JS `Math.round` (ECMA: `⌊x + 1/2⌋`), on rationals. -/
def jsRound (q : ℚ) : ℤ := ⌊q + 1/2⌋

/-- The number branch of the `replacer` of `src/utils/canonical.ts`:
`Math.round(value * 1000) / 1000`, i.e. round to at most 3 decimals. -/
def round3 (q : ℚ) : ℚ := (jsRound (q * 1000) : ℚ) / 1000

/-- Whitespace for JS `String.prototype.trim` (the ASCII part of the
ECMAScript WhiteSpace/LineTerminator sets, which is all this code base
feeds it). -/
def isWsCh (c : Char) : Bool :=
  c = ' ' || c = '\t' || c = '\n' || c = '\r' || c = '\x0b' || c = '\x0c'

/-- Drop leading, then trailing, whitespace from a char list. -/
def trimChars (l : List Char) : List Char :=
  ((l.dropWhile isWsCh).reverse.dropWhile isWsCh).reverse

/-- JS `value.trim()` as used by the `replacer`. -/
def jsTrim (s : String) : String := ⟨trimChars s.data⟩

mutual

/-- The `replacer` of `src/utils/canonical.ts`, pushed through the whole
tree the way `JSON.stringify(v, replacer)` applies it: every number is
rounded to at most 3 decimals, every string value is trimmed, object
keys and everything else pass through. -/
def applyReplacer : Json → Json
  | .num q => .num (round3 q)
  | .str s => .str (jsTrim s)
  | .arr xs => .arr (applyReplacerList xs)
  | .obj fs => .obj (applyReplacerFields fs)
  | j => j

/-- `applyReplacer` mapped over array elements. -/
def applyReplacerList : List Json → List Json
  | [] => []
  | x :: xs => applyReplacer x :: applyReplacerList xs

/-- `applyReplacer` mapped over object field values. -/
def applyReplacerFields : List (String × Json) → List (String × Json)
  | [] => []
  | (k, v) :: fs => (k, applyReplacer v) :: applyReplacerFields fs

end

/-- Hex digit for values `0..15`. -/
def hexDigit (n : Nat) : Char :=
  if n < 10 then Char.ofNat (48 + n) else Char.ofNat (87 + n)

/-- `JSON.stringify` escaping of one character inside a string literal. -/
def escapeChar (c : Char) : List Char :=
  if c = '"' then ['\\', '"']
  else if c = '\\' then ['\\', '\\']
  else if c = '\n' then ['\\', 'n']
  else if c = '\r' then ['\\', 'r']
  else if c = '\t' then ['\\', 't']
  else if c = '\x08' then ['\\', 'b']
  else if c = '\x0c' then ['\\', 'f']
  else if c.toNat < 32 then
    ['\\', 'u', '0', '0', hexDigit (c.toNat / 16), hexDigit (c.toNat % 16)]
  else [c]

/-- A JSON string literal. -/
def renderStr (s : String) : String :=
  ⟨'"' :: (s.data.flatMap escapeChar) ++ ['"']⟩

/-- Textual form of a number.  JS prints doubles in decimal; here an
injective textual encoding of the rational stands in for it (integers
print as integers; no theorem below depends on the digit-level format,
only on `renderNum` being a function). -/
def renderNum (q : ℚ) : String :=
  if q.den = 1 then toString q.num else toString q.num ++ "/" ++ toString q.den

mutual

/-- Compact `JSON.stringify` rendering (no spacing), as both
`src/utils/canonical.ts` and `src/server/app.ts` use it. -/
def render : Json → String
  | .null => "null"
  | .bool true => "true"
  | .bool false => "false"
  | .num q => renderNum q
  | .str s => renderStr s
  | .arr xs => "[" ++ renderList xs ++ "]"
  | .obj fs => "\x7b" ++ renderFields fs ++ "\x7d"

/-- Comma-separated rendering of array elements. -/
def renderList : List Json → String
  | [] => ""
  | [x] => render x
  | x :: xs => render x ++ "," ++ renderList xs

/-- Comma-separated rendering of `"key":value` pairs. -/
def renderFields : List (String × Json) → String
  | [] => ""
  | [(k, v)] => renderStr k ++ ":" ++ render v
  | (k, v) :: fs => renderStr k ++ ":" ++ render v ++ "," ++ renderFields fs

end

/-- `canonicalize` of `src/utils/canonical.ts`:
`JSON.stringify(sortKeys(obj), replacer)`. -/
def canonicalize (j : Json) : String := render (applyReplacer (sortKeys j))

/-- `canonicalBytes` of `src/server/app.ts`:
`Buffer.from(JSON.stringify(canonicalize(obj)))` where that file's
`canonicalize` is key sorting only (no replacer).  The byte string is
kept as a Lean `String` (UTF-8 text). -/
def canonicalBytes (j : Json) : String := render (sortKeys j)

/-! ### Rewriting lemmas for the mutual helpers -/

theorem sortKeysList_eq_map (xs : List Json) : sortKeysList xs = xs.map sortKeys := by
  induction xs with
  | nil => rfl
  | cons x xs ih => simp [sortKeysList, ih]

theorem sortKeysFields_eq_map (fs : List (String × Json)) :
    sortKeysFields fs = fs.map (fun p => (p.1, sortKeys p.2)) := by
  induction fs with
  | nil => rfl
  | cons p fs ih => obtain ⟨k, v⟩ := p; simp [sortKeysFields, ih]

theorem applyReplacerList_eq_map (xs : List Json) :
    applyReplacerList xs = xs.map applyReplacer := by
  induction xs with
  | nil => rfl
  | cons x xs ih => simp [applyReplacerList, ih]

theorem applyReplacerFields_eq_map (fs : List (String × Json)) :
    applyReplacerFields fs = fs.map (fun p => (p.1, applyReplacer p.2)) := by
  induction fs with
  | nil => rfl
  | cons p fs ih => obtain ⟨k, v⟩ := p; simp [applyReplacerFields, ih]

theorem keys_sortKeysFields (fs : List (String × Json)) :
    (sortKeysFields fs).map Prod.fst = fs.map Prod.fst := by
  rw [sortKeysFields_eq_map, List.map_map]
  rfl

theorem keys_applyReplacerFields (fs : List (String × Json)) :
    (applyReplacerFields fs).map Prod.fst = fs.map Prod.fst := by
  rw [applyReplacerFields_eq_map, List.map_map]
  rfl

/-- Key-preserving maps over the fields commute with the key sort. -/
theorem map_insertionSort_keyLe (f : String × Json → String × Json)
    (hf : ∀ p, (f p).1 = p.1) (l : List (String × Json)) :
    (List.insertionSort keyLe l).map f = List.insertionSort keyLe (l.map f) :=
  List.map_insertionSort keyLe keyLe f l
    (fun a _ b _ => by simp [keyLe, hf])

theorem sortKeysFields_insertionSort (l : List (String × Json)) :
    sortKeysFields (List.insertionSort keyLe l) =
      List.insertionSort keyLe (sortKeysFields l) := by
  rw [sortKeysFields_eq_map, sortKeysFields_eq_map]
  exact map_insertionSort_keyLe (fun p => (p.1, sortKeys p.2)) (fun p => rfl) l

theorem applyReplacerFields_insertionSort (l : List (String × Json)) :
    applyReplacerFields (List.insertionSort keyLe l) =
      List.insertionSort keyLe (applyReplacerFields l) := by
  rw [applyReplacerFields_eq_map, applyReplacerFields_eq_map]
  exact map_insertionSort_keyLe (fun p => (p.1, applyReplacer p.2)) (fun p => rfl) l

/-! ### Idempotence of the normalisation -/

theorem round3_idem (q : ℚ) : round3 (round3 q) = round3 q := by
  unfold round3 jsRound
  rw [div_mul_cancel₀ _ (by norm_num : (1000 : ℚ) ≠ 0), add_comm, Int.floor_add_int]
  norm_num

theorem dropWhile_idem (p : α → Bool) (l : List α) :
    (l.dropWhile p).dropWhile p = l.dropWhile p := by
  cases h : l.dropWhile p with
  | nil => rfl
  | cons a t =>
    have ha : ¬ p a := by
      have := List.head?_dropWhile_not p l
      rw [h] at this
      simpa using this
    simp [List.dropWhile_cons_of_neg ha]

theorem prefix_head? {l₁ l₂ : List α} (h : l₁ <+: l₂) (hne : l₁ ≠ []) :
    l₂.head? = l₁.head? := by
  obtain ⟨t, rfl⟩ := h
  cases l₁ with
  | nil => exact absurd rfl hne
  | cons a l => rfl

theorem trimChars_idem (l : List Char) : trimChars (trimChars l) = trimChars l := by
  unfold trimChars
  set A := l.dropWhile isWsCh with hA
  set B := A.reverse.dropWhile isWsCh with hB
  have hBA : B.reverse <+: A := by
    have h1 : B <:+ A.reverse := List.dropWhile_suffix _
    have := List.reverse_prefix.mpr h1
    simpa using this
  have hdrop : B.reverse.dropWhile isWsCh = B.reverse := by
    cases hc : B.reverse with
    | nil => rfl
    | cons a t =>
      have hAhead : A.head? = some a := by
        rw [prefix_head? hBA (by simp [hc]), hc]
        rfl
      have hne : ¬ isWsCh a := by
        have := List.head?_dropWhile_not isWsCh l
        rw [← hA, hAhead] at this
        simpa using this
      simp [List.dropWhile_cons_of_neg hne]
  rw [hdrop, List.reverse_reverse, dropWhile_idem]

theorem jsTrim_idem (s : String) : jsTrim (jsTrim s) = jsTrim s := by
  simp [jsTrim, trimChars_idem]

mutual

theorem applyReplacer_idem : ∀ j, applyReplacer (applyReplacer j) = applyReplacer j
  | .null => rfl
  | .bool _ => rfl
  | .num q => by simp [applyReplacer, round3_idem]
  | .str s => by simp [applyReplacer, jsTrim_idem]
  | .arr xs => by simp [applyReplacer, applyReplacerList_idem xs]
  | .obj fs => by simp [applyReplacer, applyReplacerFields_idem fs]

theorem applyReplacerList_idem :
    ∀ xs, applyReplacerList (applyReplacerList xs) = applyReplacerList xs
  | [] => rfl
  | x :: xs => by
      simp [applyReplacerList, applyReplacer_idem x, applyReplacerList_idem xs]

theorem applyReplacerFields_idem :
    ∀ fs, applyReplacerFields (applyReplacerFields fs) = applyReplacerFields fs
  | [] => rfl
  | (k, v) :: fs => by
      simp [applyReplacerFields, applyReplacer_idem v, applyReplacerFields_idem fs]

end

mutual

theorem sortKeys_idem : ∀ j, sortKeys (sortKeys j) = sortKeys j
  | .null => rfl
  | .bool _ => rfl
  | .num _ => rfl
  | .str _ => rfl
  | .arr xs => by simp [sortKeys, sortKeysList_idem xs]
  | .obj fs => by
      simp only [sortKeys]
      rw [sortKeysFields_insertionSort, sortKeysFields_idem fs,
        (List.sorted_insertionSort keyLe (sortKeysFields fs)).insertionSort_eq]

theorem sortKeysList_idem : ∀ xs, sortKeysList (sortKeysList xs) = sortKeysList xs
  | [] => rfl
  | x :: xs => by simp [sortKeysList, sortKeys_idem x, sortKeysList_idem xs]

theorem sortKeysFields_idem : ∀ fs, sortKeysFields (sortKeysFields fs) = sortKeysFields fs
  | [] => rfl
  | (k, v) :: fs => by simp [sortKeysFields, sortKeys_idem v, sortKeysFields_idem fs]

end

mutual

theorem sortKeys_applyReplacer :
    ∀ j, sortKeys (applyReplacer j) = applyReplacer (sortKeys j)
  | .null => rfl
  | .bool _ => rfl
  | .num _ => rfl
  | .str _ => rfl
  | .arr xs => by simp [sortKeys, applyReplacer, sortKeysList_applyReplacer xs]
  | .obj fs => by
      simp only [sortKeys, applyReplacer]
      rw [sortKeysFields_applyReplacer fs, applyReplacerFields_insertionSort]

theorem sortKeysList_applyReplacer :
    ∀ xs, sortKeysList (applyReplacerList xs) = applyReplacerList (sortKeysList xs)
  | [] => rfl
  | x :: xs => by
      simp [sortKeysList, applyReplacerList, sortKeys_applyReplacer x,
        sortKeysList_applyReplacer xs]

theorem sortKeysFields_applyReplacer :
    ∀ fs, sortKeysFields (applyReplacerFields fs) = applyReplacerFields (sortKeysFields fs)
  | [] => rfl
  | (k, v) :: fs => by
      simp [sortKeysFields, applyReplacerFields, sortKeys_applyReplacer v,
        sortKeysFields_applyReplacer fs]

end

/-! ### Structural equality up to object key order -/

mutual

/-- Two JSON values are structurally equal when they agree everywhere
except that, at every nesting level, the two objects may list the same
keyed fields in different insertion orders.  Array element order is
significant and must agree. -/
inductive StructEq : Json → Json → Prop where
  | null : StructEq .null .null
  | bool (b : Bool) : StructEq (.bool b) (.bool b)
  | num (q : ℚ) : StructEq (.num q) (.num q)
  | str (s : String) : StructEq (.str s) (.str s)
  | arr {xs ys : List Json} : StructEqList xs ys → StructEq (.arr xs) (.arr ys)
  | obj {fs hs gs : List (String × Json)} :
      StructEqFields fs hs → hs.Perm gs → StructEq (.obj fs) (.obj gs)

/-- Elementwise structural equality of array contents. -/
inductive StructEqList : List Json → List Json → Prop where
  | nil : StructEqList [] []
  | cons {x y : Json} {xs ys : List Json} :
      StructEq x y → StructEqList xs ys → StructEqList (x :: xs) (y :: ys)

/-- Pointwise structural equality of object fields (same keys in the
same order, structurally equal values). -/
inductive StructEqFields : List (String × Json) → List (String × Json) → Prop where
  | nil : StructEqFields [] []
  | cons {k : String} {v w : Json} {fs hs : List (String × Json)} :
      StructEq v w → StructEqFields fs hs → StructEqFields ((k, v) :: fs) ((k, w) :: hs)

end

mutual

/-- Well-formedness of a JSON value as the image of a JavaScript value:
every object has pairwise-distinct keys (a JS object cannot hold two
bindings of one key). -/
def wfJson : Json → Bool
  | .arr xs => wfList xs
  | .obj fs => decide (fs.map Prod.fst).Nodup && wfFields fs
  | _ => true

/-- `wfJson` over array elements. -/
def wfList : List Json → Bool
  | [] => true
  | x :: xs => wfJson x && wfList xs

/-- `wfJson` over object field values. -/
def wfFields : List (String × Json) → Bool
  | [] => true
  | (_, v) :: fs => wfJson v && wfFields fs

end

theorem wfFields_eq_all (fs : List (String × Json)) :
    wfFields fs = fs.all (fun p => wfJson p.2) := by
  induction fs with
  | nil => rfl
  | cons p fs ih => obtain ⟨k, v⟩ := p; simp [wfFields, ih]

/-- Strict version of the key order, used to pin down sorted
permutations. -/
def keyLt (p q : String × Json) : Prop := p.1 < q.1

instance : IsAntisymm (String × Json) keyLt :=
  ⟨fun _ _ h h' => absurd h' (lt_asymm h)⟩

/-- A permutation between two key-sorted field lists with distinct keys
is the identity. -/
theorem sorted_perm_nodup_eq {l₁ l₂ : List (String × Json)} (hp : l₁.Perm l₂)
    (hnd : (l₁.map Prod.fst).Nodup) (hs₁ : l₁.Sorted keyLe) (hs₂ : l₂.Sorted keyLe) :
    l₁ = l₂ := by
  have hnd₂ : (l₂.map Prod.fst).Nodup := ((hp.map Prod.fst).nodup_iff).mp hnd
  have hne₁ : l₁.Pairwise (fun p q : String × Json => p.1 ≠ q.1) := List.pairwise_map.mp hnd
  have hne₂ : l₂.Pairwise (fun p q : String × Json => p.1 ≠ q.1) := List.pairwise_map.mp hnd₂
  have h₁ : l₁.Sorted keyLt := (hs₁.and hne₁).imp (fun h => lt_of_le_of_ne h.1 h.2)
  have h₂ : l₂.Sorted keyLt := (hs₂.and hne₂).imp (fun h => lt_of_le_of_ne h.1 h.2)
  exact List.eq_of_perm_of_sorted hp h₁ h₂

theorem structEqFields_keys :
    ∀ {fs hs : List (String × Json)}, StructEqFields fs hs →
      fs.map Prod.fst = hs.map Prod.fst
  | [], [], _ => rfl
  | (k, v) :: fs, _, h => by
      cases h with
      | cons hv hfs => simp [structEqFields_keys hfs]

mutual

theorem structEq_sortKeys :
    ∀ (a : Json) {b : Json}, StructEq a b → wfJson a = true → wfJson b = true →
      sortKeys a = sortKeys b
  | .null, _, h, _, _ => by cases h; rfl
  | .bool _, _, h, _, _ => by cases h; rfl
  | .num _, _, h, _, _ => by cases h; rfl
  | .str _, _, h, _, _ => by cases h; rfl
  | .arr xs, _, h, ha, hb => by
      cases h with
      | arr hl =>
        simp only [sortKeys]
        rw [structEqList_sortKeys xs hl (by simpa [wfJson] using ha)
          (by simpa [wfJson] using hb)]
  | .obj fs, _, h, ha, hb => by
      cases h with
      | @obj _ hs gs hfs hperm =>
        simp only [wfJson, Bool.and_eq_true, decide_eq_true_eq] at ha hb
        have hwhs : wfFields hs = true := by
          rw [wfFields_eq_all, List.all_eq_true]
          rw [wfFields_eq_all, List.all_eq_true] at hb
          exact fun p hp => hb.2 p (hperm.subset hp)
        have hF : sortKeysFields fs = sortKeysFields hs :=
          structEqFields_sortKeys fs hfs ha.2 hwhs
        simp only [sortKeys]
        rw [hF]
        -- the two insertion sorts are permutations of each other with
        -- pairwise-distinct keys, and both are sorted
        have hndhs : (hs.map Prod.fst).Nodup := ((hperm.map Prod.fst).nodup_iff).mpr hb.1
        have hmap : (sortKeysFields hs).Perm (sortKeysFields gs) := by
          rw [sortKeysFields_eq_map, sortKeysFields_eq_map]
          exact hperm.map _
        have hpermS : (List.insertionSort keyLe (sortKeysFields hs)).Perm
            (List.insertionSort keyLe (sortKeysFields gs)) :=
          ((List.perm_insertionSort keyLe _).trans hmap).trans
            (List.perm_insertionSort keyLe _).symm
        have hndS : ((List.insertionSort keyLe (sortKeysFields hs)).map Prod.fst).Nodup := by
          rw [((List.perm_insertionSort keyLe (sortKeysFields hs)).map Prod.fst).nodup_iff,
            keys_sortKeysFields]
          exact hndhs
        rw [sorted_perm_nodup_eq hpermS hndS
          (List.sorted_insertionSort keyLe _) (List.sorted_insertionSort keyLe _)]

theorem structEqList_sortKeys :
    ∀ (xs : List Json) {ys : List Json}, StructEqList xs ys →
      wfList xs = true → wfList ys = true → sortKeysList xs = sortKeysList ys
  | [], _, h, _, _ => by cases h; rfl
  | x :: xs, _, h, ha, hb => by
      cases h with
      | cons hx hxs =>
        simp only [wfList, Bool.and_eq_true] at ha hb
        simp only [sortKeysList]
        rw [structEq_sortKeys x hx ha.1 hb.1, structEqList_sortKeys xs hxs ha.2 hb.2]

theorem structEqFields_sortKeys :
    ∀ (fs : List (String × Json)) {hs : List (String × Json)}, StructEqFields fs hs →
      wfFields fs = true → wfFields hs = true → sortKeysFields fs = sortKeysFields hs
  | [], _, h, _, _ => by cases h; rfl
  | (k, v) :: fs, _, h, ha, hb => by
      cases h with
      | cons hv hfs =>
        simp only [wfFields, Bool.and_eq_true] at ha hb
        simp only [sortKeysFields]
        rw [structEq_sortKeys v hv ha.1 hb.1, structEqFields_sortKeys fs hfs ha.2 hb.2]

end

/-! ### The canonical form is key-sorted -/

/-- Adjacent-pairs check that an object field list is in ascending key
order. -/
def sortedFieldsB : List (String × Json) → Bool
  | [] => true
  | [_] => true
  | p :: q :: fs => decide (p.1 ≤ q.1) && sortedFieldsB (q :: fs)

theorem sortedFieldsB_of_sorted :
    ∀ {l : List (String × Json)}, l.Sorted keyLe → sortedFieldsB l = true
  | [], _ => rfl
  | [_], _ => rfl
  | p :: q :: fs, h => by
      rw [List.sorted_cons] at h
      simp only [sortedFieldsB, Bool.and_eq_true, decide_eq_true_eq]
      exact ⟨h.1 q (by simp), sortedFieldsB_of_sorted h.2⟩

mutual

/-- Every object in the value lists its keys in ascending order, at
every nesting level. -/
def keysSorted : Json → Bool
  | .arr xs => keysSortedList xs
  | .obj fs => sortedFieldsB fs && keysSortedFields fs
  | _ => true

/-- `keysSorted` over array elements. -/
def keysSortedList : List Json → Bool
  | [] => true
  | x :: xs => keysSorted x && keysSortedList xs

/-- `keysSorted` over object field values. -/
def keysSortedFields : List (String × Json) → Bool
  | [] => true
  | (_, v) :: fs => keysSorted v && keysSortedFields fs

end

theorem keysSortedFields_eq_all (fs : List (String × Json)) :
    keysSortedFields fs = fs.all (fun p => keysSorted p.2) := by
  induction fs with
  | nil => rfl
  | cons p fs ih => obtain ⟨k, v⟩ := p; simp [keysSortedFields, ih]

mutual

theorem keysSorted_sortKeys : ∀ j, keysSorted (sortKeys j) = true
  | .null => rfl
  | .bool _ => rfl
  | .num _ => rfl
  | .str _ => rfl
  | .arr xs => by simp only [sortKeys, keysSorted]; exact keysSortedList_sortKeys xs
  | .obj fs => by
      simp only [sortKeys, keysSorted, Bool.and_eq_true]
      refine ⟨sortedFieldsB_of_sorted (List.sorted_insertionSort keyLe _), ?_⟩
      rw [keysSortedFields_eq_all, List.all_eq_true]
      intro p hp
      have hmem : p ∈ sortKeysFields fs :=
        (List.perm_insertionSort keyLe (sortKeysFields fs)).subset hp
      have := keysSortedFields_sortKeys fs
      rw [keysSortedFields_eq_all, List.all_eq_true] at this
      exact this p hmem

theorem keysSortedList_sortKeys : ∀ xs, keysSortedList (sortKeysList xs) = true
  | [] => rfl
  | x :: xs => by
      simp only [sortKeysList, keysSortedList, Bool.and_eq_true]
      exact ⟨keysSorted_sortKeys x, keysSortedList_sortKeys xs⟩

theorem keysSortedFields_sortKeys : ∀ fs, keysSortedFields (sortKeysFields fs) = true
  | [] => rfl
  | (k, v) :: fs => by
      simp only [sortKeysFields, keysSortedFields, Bool.and_eq_true]
      exact ⟨keysSorted_sortKeys v, keysSortedFields_sortKeys fs⟩

end

/-- **C5.** For every two JSON-like values `a` and `b` that are
structurally equal but whose objects list their keys in different
insertion orders, `canonicalize a = canonicalize b`; object keys are
sorted at every nesting level of the canonical form while array element
order is preserved. -/
theorem canonicalize_structEq_invariant (a b : Json)
    (ha : wfJson a = true) (hb : wfJson b = true) (h : StructEq a b) :
    canonicalize a = canonicalize b ∧
      keysSorted (sortKeys a) = true ∧
      ∀ xs : List Json, sortKeys (Json.arr xs) = Json.arr (xs.map sortKeys) := by
  refine ⟨?_, keysSorted_sortKeys a, fun xs => ?_⟩
  · unfold canonicalize
    rw [structEq_sortKeys a h ha hb]
  · simp [sortKeys, sortKeysList_eq_map]

/-- Example value for the C5 witness: keys out of order at both
nesting levels. -/
def exC5a : Json :=
  .obj [("b", .num 1), ("a", .obj [("y", .str " x "), ("x", .num 2)])]

/-- The same logical value as `exC5a` with both objects reordered. -/
def exC5b : Json :=
  .obj [("a", .obj [("x", .num 2), ("y", .str " x ")]), ("b", .num 1)]

/-- Witness for C5 at a concrete pair of reordered values. -/
theorem canonicalize_structEq_invariant_witness :
    canonicalize exC5a = canonicalize exC5b ∧
      keysSorted (sortKeys exC5a) = true ∧
      ∀ xs : List Json, sortKeys (Json.arr xs) = Json.arr (xs.map sortKeys) :=
  canonicalize_structEq_invariant exC5a exC5b (by decide) (by decide)
    (@StructEq.obj _ [("b", .num 1), ("a", .obj [("x", .num 2), ("y", .str " x ")])] _
      (StructEqFields.cons (StructEq.num 1)
        (StructEqFields.cons
          (@StructEq.obj _ [("y", .str " x "), ("x", .num 2)] _
            (StructEqFields.cons (StructEq.str " x ")
              (StructEqFields.cons (StructEq.num 2) StructEqFields.nil))
            (List.Perm.swap ("x", Json.num 2) ("y", Json.str " x ") []))
          StructEqFields.nil))
      (List.Perm.swap ("a", Json.obj [("x", Json.num 2), ("y", Json.str " x ")])
        ("b", Json.num 1) []))

/-- **C6.** Canonicalization is idempotent through a parse round-trip:
for every value `x` and any `parse` that correctly inverts the
serializer on `canonicalize x` (returning the normalised tree the string
renders), `canonicalize (parse (canonicalize x)) = canonicalize x`; in
particular the 3-decimal rounding and the string trimming of the
replacer are stable under a second application. -/
theorem canonicalize_parse_roundtrip_idem (parse : String → Json) (x : Json)
    (hp : parse (canonicalize x) = applyReplacer (sortKeys x)) :
    canonicalize (parse (canonicalize x)) = canonicalize x ∧
      (∀ q : ℚ, round3 (round3 q) = round3 q) ∧
      (∀ s : String, jsTrim (jsTrim s) = jsTrim s) := by
  refine ⟨?_, round3_idem, jsTrim_idem⟩
  rw [hp]
  unfold canonicalize
  rw [sortKeys_applyReplacer, sortKeys_idem, applyReplacer_idem]

/-- Example value for the C6 witness: unsorted keys, an untrimmed
string and a number with more than 3 decimals. -/
def exC6 : Json :=
  .obj [("b", .str "  hi "), ("a", .num (314159 / 100000 : ℚ))]

/-- Witness for C6 at a concrete value, with a parse function that is
correct at the one string the theorem feeds it. -/
theorem canonicalize_parse_roundtrip_idem_witness :
    canonicalize ((fun _ => applyReplacer (sortKeys exC6)) (canonicalize exC6)) =
        canonicalize exC6 ∧
      (∀ q : ℚ, round3 (round3 q) = round3 q) ∧
      (∀ s : String, jsTrim (jsTrim s) = jsTrim s) :=
  canonicalize_parse_roundtrip_idem (fun _ => applyReplacer (sortKeys exC6)) exC6 rfl

/-! ## VIN checksum validator (`isValidVin`, `src/server/app.ts`) -/

/-- The VIN character class `[A-HJ-NPR-Z0-9]` (digits and uppercase
letters without I, O, Q), by character code. -/
def vinChar (c : Char) : Bool :=
  decide ((48 ≤ c.toNat ∧ c.toNat ≤ 57) ∨ (65 ≤ c.toNat ∧ c.toNat ≤ 72) ∨
    (74 ≤ c.toNat ∧ c.toNat ≤ 78) ∨ c.toNat = 80 ∨ (82 ≤ c.toNat ∧ c.toNat ≤ 90))

/-- ASCII uppercasing of one character (JS `toUpperCase`, restricted to
ASCII, which is all the VIN code feeds it). -/
def asciiUpper (c : Char) : Char :=
  if 97 ≤ c.toNat ∧ c.toNat ≤ 122 then Char.ofNat (c.toNat - 32) else c

/-- JS `s.toUpperCase()` on ASCII text. -/
def asciiUpperStr (s : String) : String := ⟨s.data.map asciiUpper⟩

/-- One character of the case-insensitive class test
`/^[A-HJ-NPR-Z0-9]{17}$/i`. -/
def vinCharCI (c : Char) : Bool := vinChar (asciiUpper c)

/-- The `values` substitution table of `isValidVin`
(`src/server/app.ts`). -/
def vinTable : List (Char × Nat) :=
  [('0', 0), ('1', 1), ('2', 2), ('3', 3), ('4', 4), ('5', 5), ('6', 6), ('7', 7),
   ('8', 8), ('9', 9),
   ('A', 1), ('B', 2), ('C', 3), ('D', 4), ('E', 5), ('F', 6), ('G', 7), ('H', 8),
   ('J', 1), ('K', 2), ('L', 3), ('M', 4), ('N', 5), ('P', 7), ('R', 9), ('S', 2),
   ('T', 3), ('U', 4), ('V', 5), ('W', 6), ('X', 7), ('Y', 8), ('Z', 9)]

/-- `values[c]`: table lookup, `undefined` for a character outside the
table. -/
def vinValue (c : Char) : Option Nat :=
  (vinTable.find? (fun p => p.1 = c)).map (·.2)

/-- The `weights` vector of `isValidVin`. -/
def vinWeights : List Nat := [8, 7, 6, 5, 4, 3, 2, 10, 0, 9, 8, 7, 6, 5, 4, 3, 2]

/-- The weighted-sum loop of `isValidVin`: positions `0..16`, skipping
index 8, adding `(values[upper[i]] || 0) * weights[i]`. -/
def codeVinSum (chars : List Char) : Nat :=
  (List.range 17).foldl
    (fun s i =>
      if i = 8 then s
      else s + (vinValue (chars.getD i ' ')).getD 0 * vinWeights.getD i 0) 0

/-- `expectedCheck`: `sum % 11`, printed as a digit, with `10` mapped to
`'X'`. -/
def vinExpectedCheck (chars : List Char) : Char :=
  if codeVinSum chars % 11 = 10 then 'X' else Char.ofNat (48 + codeVinSum chars % 11)

/-- `isValidVin` of `src/server/app.ts`: length 17, the `/i` character
class test, then comparison of position 9 (index 8) with the recomputed
check digit. -/
def isValidVin (vin : String) : Bool :=
  if vin.length ≠ 17 then false
  else if ¬ vin.data.all vinCharCI = true then false
  else decide ((asciiUpperStr vin).data.getD 8 ' ' = vinExpectedCheck (asciiUpperStr vin).data)

/-- The ISO 3779 mod-11 sum as the spec words it: substitute each
character via the fixed table, multiply position 1–17 (skipping
position 9, the check digit) by the weight vector, and sum. -/
def isoCheckSum (s : String) : Nat :=
  ∑ i ∈ Finset.range 17,
    if i = 8 then 0 else (vinValue (s.data.getD i ' ')).getD 0 * vinWeights.getD i 0

/-- The spec's derived check character: the sum mod 11, with 10 mapped
to `'X'`. -/
def isoCheckChar (s : String) : Char :=
  if isoCheckSum s % 11 = 10 then 'X' else Char.ofNat (48 + isoCheckSum s % 11)

theorem asciiUpper_of_vinChar {c : Char} (h : vinChar c = true) : asciiUpper c = c := by
  simp only [vinChar, decide_eq_true_eq] at h
  unfold asciiUpper
  rw [if_neg]
  omega

theorem codeVinSum_eq_isoCheckSum (s : String) : codeVinSum s.data = isoCheckSum s := by
  unfold codeVinSum isoCheckSum
  rw [show List.range 17 = [0, 1, 2, 3, 4, 5, 6, 7, 8, 9, 10, 11, 12, 13, 14, 15, 16] from rfl,
    show (17 : ℕ) = 16 + 1 from rfl]
  simp only [List.foldl_cons, List.foldl_nil, Finset.sum_range_succ, Finset.sum_range_zero]
  norm_num

/-- **C2.** For every string of length 17 over the VIN alphabet
`[A-HJ-NPR-Z0-9]`, `isValidVin` returns `true` if and only if the
ISO 3779 mod-11 check character derived from positions 1–17 (skipping
position 9) equals the character at position 9. -/
theorem map_asciiUpper_eq_self {l : List Char} (h : ∀ c ∈ l, vinChar c = true) :
    l.map asciiUpper = l := by
  induction l with
  | nil => rfl
  | cons a t ih =>
      simp only [List.map_cons, List.cons.injEq]
      exact ⟨asciiUpper_of_vinChar (h a (by simp)),
        ih (fun c hc => h c (by simp [hc]))⟩

theorem isValidVin_iff_checkDigit (s : String) (hlen : s.length = 17)
    (halpha : s.data.all vinChar = true) :
    isValidVin s = true ↔ s.data.getD 8 ' ' = isoCheckChar s := by
  rw [List.all_eq_true] at halpha
  have hup : asciiUpperStr s = s := by
    unfold asciiUpperStr
    rw [map_asciiUpper_eq_self halpha]
  have hall : s.data.all vinCharCI = true := by
    rw [List.all_eq_true]
    intro c hc
    unfold vinCharCI
    rw [asciiUpper_of_vinChar (halpha c hc)]
    exact halpha c hc
  have hcheck : vinExpectedCheck s.data = isoCheckChar s := by
    unfold vinExpectedCheck isoCheckChar
    rw [codeVinSum_eq_isoCheckSum]
  unfold isValidVin
  rw [if_neg (show ¬ s.length ≠ 17 from fun h => h hlen),
    if_neg (show ¬ ¬ s.data.all vinCharCI = true from fun h => h hall), hup, hcheck,
    decide_eq_true_iff]

/-- Witness for C2 at the all-ones test VIN (check digit `'1'`). -/
theorem isValidVin_iff_checkDigit_witness :
    ("11111111111111111" : String).length = 17 ∧
      ("11111111111111111" : String).data.all vinChar = true ∧
      (isValidVin "11111111111111111" = true ↔
        ("11111111111111111" : String).data.getD 8 ' ' = isoCheckChar "11111111111111111") :=
  ⟨by decide, by decide, isValidVin_iff_checkDigit "11111111111111111" (by decide) (by decide)⟩

/-- The declared VIN pattern `^[A-HJ-NPR-Z0-9]{17}$`. -/
def vinPattern (v : String) : Bool := decide (v.length = 17) && v.data.all vinChar

/-! ## Local ECDSA sealer (`src/crypto/sealer-local.ts`) -/

/-- Modelled from the spec: the AJV schema file
`passportDraft.schema.json` compiled by `src/schema/index.ts` is not in
the source snapshot.  Per the spec, a draft is an object requiring `vin`
(17 characters over `[A-HJ-NPR-Z0-9]`, the declared pattern) and
`lot_id`, and a draft never contains a `seal` block. -/
def validateDraftSpec : Json → Bool
  | .obj fs =>
      (match Json.asStr ((fs.find? (fun p => p.1 = "vin")).map (·.2)) with
       | some v => vinPattern v
       | none => false) &&
      (match Json.asStr ((fs.find? (fun p => p.1 = "lot_id")).map (·.2)) with
       | some _ => true
       | none => false) &&
      fs.all (fun p => decide (p.1 ≠ "seal"))
  | _ => false

/-- The `seal` block assembled by `sealPassportDraft`. -/
def mkSealObj (hashHex sigB64 keyId ts : String) : Json :=
  .obj [("hash", .str hashHex), ("sig", .str sigB64),
    ("key_id", .str keyId), ("sealed_ts", .str ts)]

/-- `sealPassportDraft` of `src/crypto/sealer-local.ts`: validate the
draft (throwing — here `none` — on failure), canonicalize it, hash and
sign the canonical string, and attach the `seal` block via
`{...draft, seal}`.  `hashFn` stands for `sha256Hex`, `sign` for
`ecdsaSignBase64DER` with the supplied private key. -/
def sealPassportDraft (hashFn sign : String → String) (keyId ts : String)
    (draft : Json) : Option Json :=
  if validateDraftSpec draft then
    match draft with
    | .obj fs =>
        some (.obj (Json.setKey fs "seal"
          (mkSealObj (hashFn (canonicalize draft)) (sign (canonicalize draft)) keyId ts)))
    | _ => none
  else none

/-- Result shape of `verifySealedPassport`: `reasons` is omitted
(`none`) when empty. -/
structure VerifyLocalResult where
  valid : Bool
  reasons : Option (List String)

/-- `verifySealedPassport` of `src/crypto/sealer-local.ts`: rebuild the
canonical string without the `seal` block, recompute the hash, check the
stored `hash` and verify the stored `sig`; a missing seal block or
non-string `sig`/`hash` yields `"missing seal fields"`.  `ecVerify`
stands for `ecdsaVerifyBase64DER` with the public key. -/
def verifySealedPassport (hashFn : String → String) (ecVerify : String → String → Bool)
    (sealed : Json) : VerifyLocalResult :=
  let canonical := canonicalize (Json.stripKey sealed "seal")
  match Json.asStr ((Json.getField sealed "seal").bind (fun sj => Json.getField sj "sig")),
      Json.asStr ((Json.getField sealed "seal").bind (fun sj => Json.getField sj "hash")) with
  | some sig, some hash =>
      let rs := (if hashFn canonical ≠ hash then ["hash mismatch"] else []) ++
        (if ecVerify canonical sig then [] else ["signature verify failed"])
      ⟨rs.isEmpty, if rs.isEmpty then none else some rs⟩
  | _, _ => ⟨false, some ["missing seal fields"]⟩

theorem setKey_append {fs : List (String × Json)} {k : String} {v : Json}
    (h : ∀ p ∈ fs, p.1 ≠ k) : Json.setKey fs k v = fs ++ [(k, v)] := by
  unfold Json.setKey
  rw [if_neg]
  simp only [List.any_eq_true, not_exists, not_and]
  intro p hp
  simp [h p hp]

theorem filter_ne_key {fs : List (String × Json)} {k : String}
    (h : ∀ p ∈ fs, p.1 ≠ k) : fs.filter (fun p => p.1 ≠ k) = fs :=
  List.filter_eq_self.mpr (fun p hp => by simp [h p hp])

theorem stripKey_append {fs : List (String × Json)} {k : String} {v : Json}
    (h : ∀ p ∈ fs, p.1 ≠ k) :
    Json.stripKey (.obj (fs ++ [(k, v)])) k = .obj fs := by
  show Json.obj ((fs ++ [(k, v)]).filter (fun p => p.1 ≠ k)) = Json.obj fs
  rw [List.filter_append, filter_ne_key h]
  simp

theorem getField_append_last {fs : List (String × Json)} {k : String} {v : Json}
    (h : ∀ p ∈ fs, p.1 ≠ k) :
    Json.getField (.obj (fs ++ [(k, v)])) k = some v := by
  show ((fs ++ [(k, v)]).find? (fun p => p.1 = k)).map (·.2) = some v
  rw [List.find?_append]
  have hnone : fs.find? (fun p => p.1 = k) = none :=
    List.find?_eq_none.mpr (fun p hp => by simp [h p hp])
  rw [hnone]
  simp

/-- **C1.** For every draft that passes schema validation and every
matching key pair (modelled as a sign/verify pair with
`ecVerify m (sign m) = true`), verifying the result of sealing yields
`valid = true`. -/
theorem seal_verify_roundtrip (hashFn sign : String → String)
    (ecVerify : String → String → Bool)
    (hkeys : ∀ m, ecVerify m (sign m) = true)
    (keyId ts : String) (draft : Json)
    (hvalid : validateDraftSpec draft = true) :
    ∃ sealedJ, sealPassportDraft hashFn sign keyId ts draft = some sealedJ ∧
      (verifySealedPassport hashFn ecVerify sealedJ).valid = true := by
  cases draft with
  | obj fs =>
    have hnoseal : ∀ p ∈ fs, p.1 ≠ "seal" := by
      have h := hvalid
      simp only [validateDraftSpec, Bool.and_eq_true, List.all_eq_true,
        decide_eq_true_eq] at h
      exact h.2
    refine ⟨.obj (Json.setKey fs "seal"
        (mkSealObj (hashFn (canonicalize (.obj fs))) (sign (canonicalize (.obj fs)))
          keyId ts)), ?_, ?_⟩
    · unfold sealPassportDraft
      rw [if_pos hvalid]
    · rw [setKey_append hnoseal]
      unfold verifySealedPassport
      rw [stripKey_append hnoseal, getField_append_last hnoseal]
      simp [mkSealObj, Json.getField, Json.asStr, List.find?, hkeys]
  | null => simp [validateDraftSpec] at hvalid
  | bool b => simp [validateDraftSpec] at hvalid
  | num q => simp [validateDraftSpec] at hvalid
  | str s => simp [validateDraftSpec] at hvalid
  | arr xs => simp [validateDraftSpec] at hvalid

/-- Draft used by the C1 witness. -/
def exC1draft : Json :=
  .obj [("vin", .str "11111111111111111"), ("lot_id", .str "L-1")]

/-- Witness for C1: identity hash, identity signing, equality
verification. -/
theorem seal_verify_roundtrip_witness :
    ∃ sealedJ, sealPassportDraft id id "local-ec-p256-v1" "2025-01-01T00:00:00+02:00"
        exC1draft = some sealedJ ∧
      (verifySealedPassport id (fun a b => a == b) sealedJ).valid = true :=
  seal_verify_roundtrip id id (fun a b => a == b) (fun m => beq_self_eq_true m)
    "local-ec-p256-v1" "2025-01-01T00:00:00+02:00" exC1draft (by decide)

/-! ## The stored-record verification route (`GET /verify`,
`src/server/app.ts`) -/

/-- `sealed.seal?.hash || ""`. -/
def sealHashOf (sealed : Json) : String :=
  (Json.asStr ((Json.getField sealed "seal").bind (fun sj => Json.getField sj "hash"))).getD ""

/-- `sealed.seal?.sig`, as the string the route's truthiness test sees
(`""` both for an absent field and for an empty signature, which are
equally falsy). -/
def sigStrOf (sealed : Json) : String :=
  (Json.asStr ((Json.getField sealed "seal").bind (fun sj => Json.getField sj "sig"))).getD ""

/-- Result of the `/verify` route body. -/
structure VerifyRouteResult where
  valid : Bool
  reasons : List String

/-- The core of `GET /verify` (`src/server/app.ts`): strip the `seal`
block, recompute `sha256Hex(canonicalBytes(payload))`, compare with the
stored `seal.hash` (mismatch ⇒ `hash_mismatch`), then check the stored
signature: absent ⇒ `no_signature_present`; present with no configured
public key (`verifyBytesRS256` returns `null`) ⇒
`no_public_key_configured`; present and failing ⇒ `signature_invalid`.
`valid = hashOk && (sigOk !== false)`.  `hashFn` stands for `sha256Hex`
and `pubVerify` is `some` of the RSA-SHA256 verifier exactly when
`PUBLIC_KEY_PEM` is configured. -/
def verifyRoute (hashFn : String → String) (pubVerify : Option (String → String → Bool))
    (sealed : Json) : VerifyRouteResult :=
  let bytes := canonicalBytes (Json.stripKey sealed "seal")
  let hashOk : Bool := sealHashOf sealed == hashFn bytes
  let sigPart : Option Bool × List String :=
    if sigStrOf sealed ≠ "" then
      match pubVerify with
      | some vf =>
          (some (vf bytes (sigStrOf sealed)),
            if vf bytes (sigStrOf sealed) then [] else ["signature_invalid"])
      | none => (none, ["no_public_key_configured"])
    else (none, ["no_signature_present"])
  ⟨hashOk && !(sigPart.1 == some false),
    (if hashOk then [] else ["hash_mismatch"]) ++ sigPart.2⟩

/-- **C4.** Verification of a stored sealed record returns
`valid = true` iff the recomputed hash of the canonical bytes of the
record minus its seal equals `seal.hash` and the signature check did not
explicitly fail (no `signature_invalid` reason); an explicit signature
failure adds `signature_invalid`; a missing configured public key adds
`no_public_key_configured` without forcing `valid` to `false` (validity
then reduces to the hash check); an absent signature adds
`no_signature_present`. -/
theorem verifyRoute_valid_iff (hashFn : String → String)
    (pubVerify : Option (String → String → Bool)) (sealed : Json) :
    ((verifyRoute hashFn pubVerify sealed).valid = true ↔
      (sealHashOf sealed = hashFn (canonicalBytes (Json.stripKey sealed "seal")) ∧
        "signature_invalid" ∉ (verifyRoute hashFn pubVerify sealed).reasons)) ∧
    (sigStrOf sealed ≠ "" → pubVerify = none →
      "no_public_key_configured" ∈ (verifyRoute hashFn pubVerify sealed).reasons ∧
        ((verifyRoute hashFn pubVerify sealed).valid = true ↔
          sealHashOf sealed = hashFn (canonicalBytes (Json.stripKey sealed "seal")))) ∧
    (sigStrOf sealed = "" →
      "no_signature_present" ∈ (verifyRoute hashFn pubVerify sealed).reasons) ∧
    (∀ vf, pubVerify = some vf → sigStrOf sealed ≠ "" →
      vf (canonicalBytes (Json.stripKey sealed "seal")) (sigStrOf sealed) = false →
      "signature_invalid" ∈ (verifyRoute hashFn pubVerify sealed).reasons ∧
        (verifyRoute hashFn pubVerify sealed).valid = false) := by
  unfold verifyRoute
  by_cases hsig : sigStrOf sealed = ""
  · simp [hsig]
  · cases pubVerify with
    | none => simp [hsig]
    | some vf =>
        by_cases hvf : vf (canonicalBytes (Json.stripKey sealed "seal")) (sigStrOf sealed) = true
        · simp [hsig, hvf]
        · simp only [Bool.not_eq_true] at hvf
          by_cases hh : sealHashOf sealed = hashFn (canonicalBytes (Json.stripKey sealed "seal"))
          · simp [hsig, hvf, hh]
          · simp [hsig, hvf, hh]

/-- Sealed record used by the C4 witness: hash matches (identity hash),
signature present but failing. -/
def exC4 : Json :=
  .obj [("vin", .str "V"),
    ("seal", .obj [("hash", .str "\x7b\"vin\":\"V\"\x7d"), ("sig", .str "AAA=")])]

/-- Witness for C4 at a concrete record and verifier. -/
theorem verifyRoute_valid_iff_witness :
    ((verifyRoute id (some (fun _ _ => false)) exC4).valid = true ↔
      (sealHashOf exC4 = id (canonicalBytes (Json.stripKey exC4 "seal")) ∧
        "signature_invalid" ∉ (verifyRoute id (some (fun _ _ => false)) exC4).reasons)) ∧
    (sigStrOf exC4 ≠ "" → (some (fun _ _ => false) : Option (String → String → Bool)) = none →
      "no_public_key_configured" ∈ (verifyRoute id (some (fun _ _ => false)) exC4).reasons ∧
        ((verifyRoute id (some (fun _ _ => false)) exC4).valid = true ↔
          sealHashOf exC4 = id (canonicalBytes (Json.stripKey exC4 "seal")))) ∧
    (sigStrOf exC4 = "" →
      "no_signature_present" ∈ (verifyRoute id (some (fun _ _ => false)) exC4).reasons) ∧
    (∀ vf, (some (fun _ _ => false) : Option (String → String → Bool)) = some vf →
      sigStrOf exC4 ≠ "" →
      vf (canonicalBytes (Json.stripKey exC4 "seal")) (sigStrOf exC4) = false →
      "signature_invalid" ∈ (verifyRoute id (some (fun _ _ => false)) exC4).reasons ∧
        (verifyRoute id (some (fun _ _ => false)) exC4).valid = false) :=
  verifyRoute_valid_iff id (some (fun _ _ => false)) exC4

/-- **C3.** For every sealed record and every mutation outside the seal
block that changes the canonical bytes of the record minus its seal,
verification of the mutated record yields `valid = false` with reason
`hash_mismatch` (SHA-256 is modelled as an injective function). -/
theorem verifyRoute_tamper (hashFn : String → String)
    (hinj : Function.Injective hashFn)
    (pubVerify : Option (String → String → Bool)) (orig tampered : Json)
    (hseal : Json.getField tampered "seal" = Json.getField orig "seal")
    (hhash : sealHashOf orig = hashFn (canonicalBytes (Json.stripKey orig "seal")))
    (hdiff : canonicalBytes (Json.stripKey tampered "seal") ≠
      canonicalBytes (Json.stripKey orig "seal")) :
    (verifyRoute hashFn pubVerify tampered).valid = false ∧
      "hash_mismatch" ∈ (verifyRoute hashFn pubVerify tampered).reasons := by
  have hsame : sealHashOf tampered = sealHashOf orig := by
    unfold sealHashOf
    rw [hseal]
  have hne : sealHashOf tampered ≠
      hashFn (canonicalBytes (Json.stripKey tampered "seal")) := by
    rw [hsame, hhash]
    intro h
    exact hdiff (hinj h.symm)
  unfold verifyRoute
  simp [hne]

/-- Original record for the C3 witness (hash correct under the identity
hash). -/
def exC3orig : Json :=
  .obj [("vin", .str "A"),
    ("seal", .obj [("hash", .str "\x7b\"vin\":\"A\"\x7d"), ("sig", .str "")])]

/-- The same record with the `vin` field tampered. -/
def exC3tampered : Json :=
  .obj [("vin", .str "B"),
    ("seal", .obj [("hash", .str "\x7b\"vin\":\"A\"\x7d"), ("sig", .str "")])]

/-- Witness for C3 at a concrete tampered record. -/
theorem verifyRoute_tamper_witness :
    (verifyRoute id none exC3tampered).valid = false ∧
      "hash_mismatch" ∈ (verifyRoute id none exC3tampered).reasons :=
  verifyRoute_tamper id (fun _ _ h => h) none exC3orig exC3tampered rfl (by decide)
    (by decide)

/-! ## DTC classifier (`extractDtc`, `src/ingest/dekra/extractors.ts`)

The negation / section-header regexes are word-sequence patterns
(`\bNO\s+ACTIVE\s+ERROR\s+MESSAGES?\b` and so on).  They are embedded
as lists of literal uppercase words with an optional-plural flag;
alternations are expanded into one pattern per alternative.  Matching is
case-insensitive via uppercasing both sides, as all patterns carry the
`/i` flag or are run on uppercased text. -/

/-- JS `\w` (word character): `[A-Za-z0-9_]`. -/
def isWordCh (c : Char) : Bool := c.isAlphanum || c = '_'

/-- Match a literal character sequence, returning the rest on success. -/
def matchLit : List Char → List Char → Option (List Char)
  | [], cs => some cs
  | _ :: _, [] => none
  | p :: ps, c :: cs => if c = p then matchLit ps cs else none

/-- The trailing `\b`: end of input or a non-word character next. -/
def boundaryOk : List Char → Bool
  | [] => true
  | c :: _ => !isWordCh c

/-- Consume `\s+`: at least one whitespace character, then greedily the
rest (equivalent to backtracking here because every pattern word starts
with a non-whitespace character). -/
def wsPlus : List Char → Option (List Char)
  | [] => none
  | c :: cs => if isWsCh c then some (cs.dropWhile isWsCh) else none

/-- One phrase word: literal uppercase text plus whether the regex
allows an optional trailing `S` (as in `CODES?`). -/
abbrev PhraseWord := String × Bool

/-- Match the remaining `\s+ word` units of a phrase, ending with the
trailing `\b`; both branches of each optional `S` are tried. -/
def matchRest : List PhraseWord → List Char → Bool
  | [], cs => boundaryOk cs
  | (w, opts) :: rest, cs =>
      match wsPlus cs with
      | none => false
      | some cs₁ =>
        match matchLit w.data cs₁ with
        | none => false
        | some cs' =>
            if opts then
              match cs' with
              | 'S' :: cs'' => matchRest rest cs'' || matchRest rest cs'
              | _ => matchRest rest cs'
            else matchRest rest cs'

/-- Match a whole phrase (first word, then the rest) at the current
position. -/
def matchPhraseAt (w : PhraseWord) (rest : List PhraseWord) (cs : List Char) : Bool :=
  match matchLit w.1.data cs with
  | none => false
  | some cs' =>
      if w.2 then
        match cs' with
        | 'S' :: cs'' => matchRest rest cs'' || matchRest rest cs'
        | _ => matchRest rest cs'
      else matchRest rest cs'

/-- Scan every position of the text for the phrase, requiring the
leading `\b` (start of input or previous character not a word
character). -/
def scanPhrase (w : PhraseWord) (rest : List PhraseWord) : Bool → List Char → Bool
  | _, [] => false
  | prevWord, c :: cs =>
      (!prevWord && matchPhraseAt w rest (c :: cs)) || scanPhrase w rest (isWordCh c) cs

/-- `re.test(text)` for one word-sequence pattern. -/
def phraseFound (p : PhraseWord × List PhraseWord) (cs : List Char) : Bool :=
  scanPhrase p.1 p.2 false cs

/-- `NO_FAULT_PHRASES` of `extractDtc`, with the alternation of the
first regex expanded:
`/\bNO\s+(DTCS?|FAULT(S)?|ERROR(S)?|TROUBLE\s+CODES?)\b/i`,
`/\bNO\s+FAULT\s+CODES\s+FOUND\b/i`,
`/\bNO\s+DIAGNOSTIC\s+TROUBLE\s+CODES?\b/i`,
`/\bNO\s+ACTIVE\s+ERROR\s+MESSAGES?\b/i`. -/
def NO_FAULT_PHRASES : List (PhraseWord × List PhraseWord) :=
  [(("NO", false), [("DTC", true)]),
   (("NO", false), [("FAULT", true)]),
   (("NO", false), [("ERROR", true)]),
   (("NO", false), [("TROUBLE", false), ("CODE", true)]),
   (("NO", false), [("FAULT", false), ("CODES", false), ("FOUND", false)]),
   (("NO", false), [("DIAGNOSTIC", false), ("TROUBLE", false), ("CODE", true)]),
   (("NO", false), [("ACTIVE", false), ("ERROR", false), ("MESSAGE", true)])]

/-- `HAS_DTC_SECTION`: `/\bDIAGNOSTIC\s+TROUBLE\s+CODES?\b/i`,
`/\bDTC(S)?\b/i`, `/\bFAULT\s+CODES?\b/i`. -/
def HAS_DTC_SECTION : List (PhraseWord × List PhraseWord) :=
  [(("DIAGNOSTIC", false), [("TROUBLE", false), ("CODE", true)]),
   (("DTC", true), []),
   (("FAULT", false), [("CODE", true)])]

/-- The red-status pattern of `extractDtc`:
`/\b(MIL\s+ON|CURRENT|ACTIVE|PRESENT|PERMANENT|STORED)\b/` on the
uppercased text. -/
def RED_PATTERNS : List (PhraseWord × List PhraseWord) :=
  [(("MIL", false), [("ON", false)]),
   (("CURRENT", false), []),
   (("ACTIVE", false), []),
   (("PRESENT", false), []),
   (("PERMANENT", false), []),
   (("STORED", false), [])]

/-- `[A-Z0-9]`, the classes around a DTC token in `RE_DTC`. -/
def isUpAlnum (c : Char) : Bool := decide (('0' ≤ c ∧ c ≤ '9') ∨ ('A' ≤ c ∧ c ≤ 'Z'))

/-- `[0-9A-F]`: one uppercase hex digit. -/
def isHexUp (c : Char) : Bool := decide (('0' ≤ c ∧ c ≤ '9') ∨ ('A' ≤ c ∧ c ≤ 'F'))

/-- `[PCBU]`: a DTC system letter. -/
def isDtcHead (c : Char) : Bool := c = 'P' || c = 'C' || c = 'B' || c = 'U'

/-- Scan for `RE_DTC` =
`/(?:^|[^A-Z0-9])([PCBU][0-9A-F]{4})(?![A-Z0-9])/g` over uppercased
text: a token starts at the beginning or after a non-alphanumeric
character, and is not followed by an alphanumeric character. -/
def scanDtcCodes : Bool → List Char → List String
  | _, [] => []
  | prevAl, c :: rest =>
      (if !prevAl && isDtcHead c then
        match rest with
        | a :: b :: d :: e :: rest' =>
            if isHexUp a && isHexUp b && isHexUp d && isHexUp e &&
                !(match rest' with | [] => false | f :: _ => isUpAlnum f) then
              [String.mk [c, a, b, d, e]]
            else []
        | _ => []
      else []) ++ scanDtcCodes (isUpAlnum c) rest

/-- JS `Set` deduplication: keep the first occurrence of each string. -/
def dedupFirstAux (seen : List String) : List String → List String
  | [] => []
  | x :: xs =>
      if seen.contains x then dedupFirstAux seen xs
      else x :: dedupFirstAux (x :: seen) xs

/-- Deduplicate, keeping first occurrences. -/
def dedupFirst (l : List String) : List String := dedupFirstAux [] l

/-- Output shape of `extractDtc`. -/
structure DtcResult where
  status : String
  codes : List String

/-- `extractDtc` of `src/ingest/dekra/extractors.ts`: explicit negation
⇒ green with no codes (short-circuit); otherwise extract deduplicated
`RE_DTC` tokens; no tokens ⇒ green if a DTC section header is present,
else `n/a`; tokens ⇒ red when the red-keyword pattern matches, else
amber (the source's `PENDING` check yields amber in both branches). -/
def extractDtc (t : String) : DtcResult :=
  if NO_FAULT_PHRASES.any (fun p => phraseFound p (asciiUpperStr t).data) then
    ⟨"green", []⟩
  else
    let codes := dedupFirst (scanDtcCodes false (asciiUpperStr t).data)
    if codes.isEmpty then
      if HAS_DTC_SECTION.any (fun p => phraseFound p (asciiUpperStr t).data) then
        ⟨"green", []⟩
      else ⟨"n/a", []⟩
    else
      if RED_PATTERNS.any (fun p => phraseFound p (asciiUpperStr t).data) then
        ⟨"red", codes⟩
      else ⟨"amber", codes⟩

/-- **C7.** For every input text matching one of the explicit no-fault
negation phrasings, `extractDtc` returns status `green` with an empty
codes list — the negation check short-circuits before code extraction,
so this holds even when the text also contains tokens of the DTC code
shape `[PCBU][0-9A-F]{4}`. -/
theorem extractDtc_negation_short_circuit (t : String)
    (h : NO_FAULT_PHRASES.any (fun p => phraseFound p (asciiUpperStr t).data) = true) :
    (extractDtc t).status = "green" ∧ (extractDtc t).codes = [] := by
  unfold extractDtc
  rw [if_pos h]
  exact ⟨rfl, rfl⟩

/-- Witness for C7: a negation phrase together with two code-shaped
tokens. -/
theorem extractDtc_negation_short_circuit_witness :
    NO_FAULT_PHRASES.any
        (fun p => phraseFound p (asciiUpperStr "no active error messages P0420 U0100").data) =
        true ∧
      (extractDtc "no active error messages P0420 U0100").status = "green" ∧
      (extractDtc "no active error messages P0420 U0100").codes = [] :=
  ⟨by decide,
    extractDtc_negation_short_circuit "no active error messages P0420 U0100" (by decide)⟩

/-! ## VIN extraction and draft assembly (`src/ingest/dekra`) -/

/-- Take exactly `n` VIN-class characters from the front of the text. -/
def takeVin : Nat → List Char → Option (List Char × List Char)
  | 0, cs => some ([], cs)
  | _ + 1, [] => none
  | n + 1, c :: cs =>
      if vinChar c then
        match takeVin n cs with
        | some (tok, rest) => some (c :: tok, rest)
        | none => none
      else none

/-- First match of `VIN_RE` = `/\b([A-HJ-NPR-Z0-9]{17})\b/`
(case-sensitive): scan every position with the leading `\b` tracked. -/
def scanVin17 : Bool → List Char → Option String
  | _, [] => none
  | prevWord, c :: cs =>
      match if !prevWord then
          match takeVin 17 (c :: cs) with
          | some (tok, rest) => if boundaryOk rest then some (String.mk tok) else none
          | none => none
        else none with
      | some s => some s
      | none => scanVin17 (isWordCh c) cs

/-- Case-insensitive literal match (pattern given uppercase). -/
def litCI : List Char → List Char → Option (List Char)
  | [], cs => some cs
  | _ :: _, [] => none
  | p :: ps, c :: cs => if asciiUpper c = p then litCI ps cs else none

/-- Take exactly `n` case-insensitive VIN-class characters, keeping
their original case. -/
def takeVinCI : Nat → List Char → Option (List Char × List Char)
  | 0, cs => some ([], cs)
  | _ + 1, [] => none
  | n + 1, c :: cs =>
      if vinCharCI c then
        match takeVinCI n cs with
        | some (tok, rest) => some (c :: tok, rest)
        | none => none
      else none

/-- The labelled fallback
`/VIN[^A-HJ-NPR-Z0-9]*([A-HJ-NPR-Z0-9]{17})/i` at one position:
literal `VIN`, a maximal run outside the class, then exactly 17 class
characters (shortening the run cannot help, as the run ends at a class
character). -/
def vinLabelAt (cs : List Char) : Option String :=
  match litCI "VIN".data cs with
  | none => none
  | some cs₁ =>
      match takeVinCI 17 (cs₁.dropWhile (fun c => !vinCharCI c)) with
      | some (tok, _) => some (String.mk tok)
      | none => none

/-- First position of a line where the labelled pattern matches. -/
def scanVinLabel : List Char → Option String
  | [] => none
  | c :: cs =>
      match vinLabelAt (c :: cs) with
      | some s => some s
      | none => scanVinLabel cs

/-- JS `text.split(/\r?\n/)`: split at `\n`, dropping one `\r`
immediately before each split point.  `acc` holds the current line
reversed. -/
def splitLinesAux (acc : List Char) : List Char → List String
  | [] => [String.mk acc.reverse]
  | '\n' :: rest =>
      (match acc with
       | '\r' :: acc' => String.mk acc'.reverse
       | _ => String.mk acc.reverse) :: splitLinesAux [] rest
  | c :: rest => splitLinesAux (c :: acc) rest

/-- Split a string into lines the way the extractors do. -/
def splitLines (s : String) : List String := splitLinesAux [] s.data

/-- The labelled fallback applied line by line, first hit wins. -/
def firstVinLabel : List String → Option String
  | [] => none
  | l :: ls =>
      match scanVinLabel l.data with
      | some v => some v
      | none => firstVinLabel ls

/-- `extractVin` of `src/ingest/dekra/extractors.ts`: the first bare
17-character VIN token anywhere; else the labelled per-line fallback. -/
def extractVin (text : String) : Option String :=
  match scanVin17 false text.data with
  | some v => some v
  | none => firstVinLabel (splitLines text)

/-- JS `a || b` on an optional string: `b` when `a` is nullish or
empty (falsy). -/
def jsOrElse (o : Option String) (d : String) : String :=
  match o with
  | some s => if s = "" then d else s
  | none => d

/-- `clampMm`: clamp a tyre depth into `[0, 20]`, keeping `null`. -/
def clampMm : Option ℚ → Option ℚ
  | none => none
  | some n => some (max 0 (min 20 n))

/-- `/^https?:\/\//i`. -/
def isHttpUrl (s : String) : Bool :=
  (asciiUpperStr s).startsWith "HTTP://" || (asciiUpperStr s).startsWith "HTTPS://"

/-- The assembled draft record (`PassportDraft` of
`src/types/passport.ts`), flattened to the fields the mapper fills. -/
structure PassportDraft where
  vin : String
  lot_id : String
  dekra_url : Option String
  dekra_inspection_ts : Option String
  dekra_site : Option String
  odometer_km : Option Int
  odometer_source : String
  tyres_fl : Option ℚ
  tyres_fr : Option ℚ
  tyres_rl : Option ℚ
  tyres_rr : Option ℚ
  brakes_front_pct : Option ℚ
  brakes_rear_pct : Option ℚ
  dtc : Option DtcResult
  prov_captured_by : String
  prov_site : Option String
  prov_ts : String

/-- `MapOptions` of the mapper. -/
structure MapOptions where
  lotId : Option String
  dekraUrl : Option String
  capturedBy : Option String
  siteHint : Option String
  nowIso : Option String

/-- `mapToPassportDraft` of `src/ingest/dekra/mapper.ts`.  The
inspection-date, site, odometer and tyre extractors are independent
pure functions of the text and are passed in as parameters (their
outputs never feed the `vin` field); `now` stands for the ambient
`new Date().toISOString().replace("Z", "+02:00")`. -/
def mapToPassportDraft
    (extractInspectionDate : String → Option String)
    (extractSite : String → Option String)
    (extractOdometerKm : String → Option Int)
    (extractTyres : String → (Option ℚ × Option ℚ × Option ℚ × Option ℚ))
    (now : String) (text : String) (opts : MapOptions) : PassportDraft :=
  let vin := (extractVin text).getD "UNKNOWNVIN0000000"
  let site :=
    match opts.siteHint with
    | some s => some s
    | none => extractSite text
  let km := extractOdometerKm text
  let tyres := extractTyres text
  let dtcRes := extractDtc text
  let dekraUrl :=
    match opts.dekraUrl with
    | some u => if isHttpUrl u then some u else none
    | none => none
  { vin := vin
    lot_id := jsOrElse opts.lotId "N/A"
    dekra_url := dekraUrl
    dekra_inspection_ts := extractInspectionDate text
    dekra_site := site
    odometer_km := km
    odometer_source := if km.isSome then "DEKRA" else "n/a"
    tyres_fl := clampMm tyres.1
    tyres_fr := clampMm tyres.2.1
    tyres_rl := clampMm tyres.2.2.1
    tyres_rr := clampMm tyres.2.2.2
    brakes_front_pct := none
    brakes_rear_pct := none
    dtc := if dtcRes.status == "n/a" && dtcRes.codes.isEmpty then none else some dtcRes
    prov_captured_by := jsOrElse opts.capturedBy "system"
    prov_site := site
    prov_ts := jsOrElse opts.nowIso now }

/-- **C10.** When `extractVin` finds no VIN token in the text,
`mapToPassportDraft` still returns a draft (it never fails), with `vin`
equal to the fixed placeholder `"UNKNOWNVIN0000000"` — a constant that
contains the letter `O` and therefore does not match the declared VIN
pattern `^[A-HJ-NPR-Z0-9]{17}$`. -/
theorem mapToPassportDraft_unknown_vin
    (eDate : String → Option String) (eSite : String → Option String)
    (eOdo : String → Option Int)
    (eTyres : String → (Option ℚ × Option ℚ × Option ℚ × Option ℚ))
    (now text : String) (opts : MapOptions)
    (h : extractVin text = none) :
    (mapToPassportDraft eDate eSite eOdo eTyres now text opts).vin =
        "UNKNOWNVIN0000000" ∧
      vinPattern "UNKNOWNVIN0000000" = false ∧
      'O' ∈ ("UNKNOWNVIN0000000" : String).data := by
  refine ⟨?_, by decide, by decide⟩
  unfold mapToPassportDraft
  rw [h]
  rfl

/-- Witness for C10 on a text with no VIN. -/
theorem mapToPassportDraft_unknown_vin_witness :
    extractVin "hello world" = none ∧
      ((mapToPassportDraft (fun _ => none) (fun _ => none) (fun _ => none)
          (fun _ => (none, none, none, none)) "2025-01-01T00:00:00+02:00"
          "hello world" ⟨none, none, none, none, none⟩).vin = "UNKNOWNVIN0000000" ∧
        vinPattern "UNKNOWNVIN0000000" = false ∧
        'O' ∈ ("UNKNOWNVIN0000000" : String).data) :=
  ⟨by decide,
    mapToPassportDraft_unknown_vin (fun _ => none) (fun _ => none) (fun _ => none)
      (fun _ => (none, none, none, none)) "2025-01-01T00:00:00+02:00" "hello world"
      ⟨none, none, none, none, none⟩ (by decide)⟩

/-! ## Odometer candidate selection (`pickBestOdo` and the
`POST /ocr/odometer` route) -/

/-- An odometer candidate as pooled by the route (integer value, raw
match, heuristic score, OCR confidence, strategy tag). -/
structure OdoCand where
  value : Int
  raw : String
  score : ℚ
  confidence : ℚ
  source : String
  deriving DecidableEq

/-- The comparator of `pickBestOdo`:
`(b.score - a.score) || (b.value - a.value)` — descending score, then
descending value ("`a` sorts no later than `b`"). -/
def pickRel (a b : OdoCand) : Prop :=
  b.score < a.score ∨ (a.score = b.score ∧ b.value ≤ a.value)

instance : DecidableRel pickRel := fun a b =>
  inferInstanceAs (Decidable (b.score < a.score ∨ (a.score = b.score ∧ b.value ≤ a.value)))

instance : IsTotal OdoCand pickRel :=
  ⟨fun a b => by
    rcases lt_trichotomy a.score b.score with h | h | h
    · exact Or.inr (Or.inl h)
    · rcases le_total a.value b.value with hv | hv
      · exact Or.inr (Or.inr ⟨h.symm, hv⟩)
      · exact Or.inl (Or.inr ⟨h, hv⟩)
    · exact Or.inl (Or.inl h)⟩

instance : IsTrans OdoCand pickRel :=
  ⟨fun a b c hab hbc => by
    rcases hab with h1 | ⟨h1, h1'⟩ <;> rcases hbc with h2 | ⟨h2, h2'⟩
    · exact Or.inl (h2.trans h1)
    · exact Or.inl (h2 ▸ h1)
    · exact Or.inl (h1 ▸ h2)
    · exact Or.inr ⟨h1.trans h2, h2'.trans h1'⟩⟩

/-- `pickBestOdo` (`src/server/app.ts` variants): sort a copy with the
score-then-value comparator and return the first element, `null` on an
empty pool.  JS `Array.prototype.sort` is stable and is modelled by a
stable insertion sort. -/
def pickBestOdo (cands : List OdoCand) : Option OdoCand :=
  (List.insertionSort pickRel cands).head?

/-- The route comparator `(a, b) => b.score - a.score`: descending
score only. -/
def routeScoreRel (a b : OdoCand) : Prop := b.score ≤ a.score

instance : DecidableRel routeScoreRel := fun a b =>
  inferInstanceAs (Decidable (b.score ≤ a.score))

instance : IsTotal OdoCand routeScoreRel := ⟨fun a b => le_total b.score a.score⟩

instance : IsTrans OdoCand routeScoreRel := ⟨fun _ _ _ h h' => le_trans h' h⟩

/-- The final selection of `POST /ocr/odometer`:
`uniqueCandidates.sort((a, b) => b.score - a.score)` and take element 0
(`null` when empty). -/
def routePickBest (cands : List OdoCand) : Option OdoCand :=
  (List.insertionSort routeScoreRel cands).head?

/-- The head of a stable sort is related to every pool element. -/
theorem head_insertionSort_rel (r : OdoCand → OdoCand → Prop) [DecidableRel r]
    [IsTotal OdoCand r] [IsTrans OdoCand r] (l : List OdoCand) (hne : l ≠ []) :
    ∃ b, (List.insertionSort r l).head? = some b ∧ b ∈ l ∧ ∀ c ∈ l, r b c := by
  cases hs : List.insertionSort r l with
  | nil =>
      exfalso
      have := List.length_insertionSort r l
      rw [hs] at this
      exact hne (List.length_eq_zero.mp this.symm)
  | cons b t =>
      refine ⟨b, rfl, ?_, ?_⟩
      · have hb : b ∈ List.insertionSort r l := by rw [hs]; exact List.mem_cons_self b t
        exact (List.mem_insertionSort r).mp hb
      · intro c hc
        have hc' : c ∈ b :: t := by
          rw [← hs]
          exact (List.mem_insertionSort r).mpr hc
        rcases List.mem_cons.mp hc' with rfl | hct
        · rcases IsTotal.total (r := r) c c with h | h <;> exact h
        · have hsorted := List.sorted_insertionSort r l
          rw [hs] at hsorted
          exact List.rel_of_sorted_cons hsorted c hct

/-- **C8 (amended).** On every non-empty deduplicated pool,
`pickBestOdo` returns a candidate with the highest score, breaking
exactly-equal scores in favour of the larger value; the
`/ocr/odometer` route's final selection, which sorts by score alone,
returns a candidate with the highest score (equal-score ties keep pool
order rather than preferring the larger value). -/
theorem odo_selection_spec (cands : List OdoCand) (hne : cands ≠ []) :
    (∃ b, pickBestOdo cands = some b ∧ b ∈ cands ∧
      ∀ c ∈ cands, c.score ≤ b.score ∧ (c.score = b.score → c.value ≤ b.value)) ∧
    (∃ r, routePickBest cands = some r ∧ r ∈ cands ∧ ∀ c ∈ cands, c.score ≤ r.score) := by
  constructor
  · obtain ⟨b, hhead, hmem, hrel⟩ := head_insertionSort_rel pickRel cands hne
    refine ⟨b, hhead, hmem, fun c hc => ?_⟩
    rcases hrel c hc with h | ⟨h, h'⟩
    · exact ⟨le_of_lt h, fun heq => absurd (heq ▸ h) (lt_irrefl _)⟩
    · exact ⟨le_of_eq h.symm, fun _ => h'⟩
  · obtain ⟨b, hhead, hmem, hrel⟩ := head_insertionSort_rel routeScoreRel cands hne
    exact ⟨b, hhead, hmem, hrel⟩

/-- Witness for the amended C8 on a two-candidate pool. -/
theorem odo_selection_spec_witness :
    ([⟨100, "100", 10, 80, "text_pattern"⟩,
        ⟨200, "200", 10, 80, "text_pattern"⟩] : List OdoCand) ≠ [] ∧
      ((∃ b, pickBestOdo [⟨100, "100", 10, 80, "text_pattern"⟩,
            ⟨200, "200", 10, 80, "text_pattern"⟩] = some b ∧
          b ∈ ([⟨100, "100", 10, 80, "text_pattern"⟩,
            ⟨200, "200", 10, 80, "text_pattern"⟩] : List OdoCand) ∧
          ∀ c ∈ ([⟨100, "100", 10, 80, "text_pattern"⟩,
            ⟨200, "200", 10, 80, "text_pattern"⟩] : List OdoCand),
            c.score ≤ b.score ∧ (c.score = b.score → c.value ≤ b.value)) ∧
        (∃ r, routePickBest [⟨100, "100", 10, 80, "text_pattern"⟩,
            ⟨200, "200", 10, 80, "text_pattern"⟩] = some r ∧
          r ∈ ([⟨100, "100", 10, 80, "text_pattern"⟩,
            ⟨200, "200", 10, 80, "text_pattern"⟩] : List OdoCand) ∧
          ∀ c ∈ ([⟨100, "100", 10, 80, "text_pattern"⟩,
            ⟨200, "200", 10, 80, "text_pattern"⟩] : List OdoCand), c.score ≤ r.score)) :=
  ⟨by simp,
    odo_selection_spec [⟨100, "100", 10, 80, "text_pattern"⟩,
      ⟨200, "200", 10, 80, "text_pattern"⟩] (by simp)⟩

/-- **C8 counterexample.** The claim as stated fails on the
`/ocr/odometer` route's final selection: on a deduplicated pool of two
candidates with exactly equal scores, the route keeps the first-pooled
candidate, whose value `100` is smaller than the other candidate's
`200` — not "the one with the larger integer value". -/
theorem routePickBest_tie_keeps_smaller :
    routePickBest [⟨100, "100", 10, 80, "text_pattern"⟩,
        ⟨200, "200", 10, 80, "text_pattern"⟩] =
      some ⟨100, "100", 10, 80, "text_pattern"⟩ ∧
    (⟨100, "100", 10, 80, "text_pattern"⟩ : OdoCand).score =
      (⟨200, "200", 10, 80, "text_pattern"⟩ : OdoCand).score ∧
    (⟨100, "100", 10, 80, "text_pattern"⟩ : OdoCand).value <
      (⟨200, "200", 10, 80, "text_pattern"⟩ : OdoCand).value := by
  refine ⟨?_, rfl, by norm_num⟩
  decide

/-! ## Dev storage (`src/server/storage.ts`) -/

/-- `sanitizeVin` of `storage.ts`: uppercase, strip characters outside
`[A-Z0-9]`, truncate to 17. -/
def sanitizeVin (vin : String) : String :=
  ⟨((vin.data.map asciiUpper).filter isUpAlnum).take 17⟩

/-- A stored record: `{vin, draft?, sealed?, updatedAt}`. -/
structure PassportRecord where
  vin : String
  draft : Option Json
  sealed : Option Json
  updatedAt : String

/-- `safeStableStringify`: stable-key-order stringify.  Cycles cannot
occur in an inductive value, and `JSON.stringify` of `undefined` is
`undefined` (`none`). -/
def safeStableStringify (x : Option Json) : Option String :=
  x.map (fun j => render (sortKeys j))

/-- `changed` of `storage.ts`: the stable stringifications differ. -/
def changed (a b : Option Json) : Bool :=
  !(safeStableStringify a == safeStableStringify b)

/-- `draft.vin` as `sanitizeVin` receives it (`""` when the field is
missing or not a string). -/
def draftVinOf (draft : Json) : String :=
  (Json.asStr (Json.getField draft "vin")).getD ""

/-- `DevStorage.upsertDraft`: look up the current record under the
draft's sanitized VIN (the caller's `map.get`), store the new draft,
and drop the sealed copy exactly when the draft content changed
(`sealed: current.sealed && changed(current.draft, draft) ? undefined
: current.sealed`).  `none` models the thrown error on an empty
sanitized VIN. -/
def upsertDraft (now : String) (current : Option PassportRecord) (draft : Json) :
    Option PassportRecord :=
  let vin := sanitizeVin (draftVinOf draft)
  if vin = "" then none
  else
    let cur := current.getD ⟨vin, none, none, now⟩
    some { vin := vin
           draft := some draft
           sealed :=
             match cur.sealed with
             | some s => if changed cur.draft (some draft) then none else some s
             | none => none
           updatedAt := now }

/-- **C9.** For a stored record holding both a draft and a sealed copy,
upserting a new draft removes the sealed copy exactly when the new
draft's content differs from the stored draft (content compared by
stable key-order stringification, as `changed` does); identical content
preserves the sealed copy. -/
theorem upsertDraft_seal_invalidation (now : String) (rec : PassportRecord)
    (d₀ s d : Json) (hd : rec.draft = some d₀) (hs : rec.sealed = some s)
    (hvin : sanitizeVin (draftVinOf d) ≠ "") :
    ∃ rec', upsertDraft now (some rec) d = some rec' ∧
      rec'.draft = some d ∧
      rec'.sealed =
        (if render (sortKeys d) = render (sortKeys d₀) then some s else none) := by
  unfold upsertDraft
  rw [if_neg hvin]
  refine ⟨_, rfl, rfl, ?_⟩
  simp only [Option.getD_some, hd, hs, changed, safeStableStringify, Option.map_some]
  by_cases h : render (sortKeys d) = render (sortKeys d₀)
  · simp [h]
  · simp [h, Ne.symm h]

/-- Draft contents for the C9 witness. -/
def exC9d₀ : Json := .obj [("vin", .str "11111111111111111"), ("odo", .num 100)]

/-- A different draft for the same VIN. -/
def exC9d : Json := .obj [("vin", .str "11111111111111111"), ("odo", .num 200)]

/-- Witness for C9: the changed draft drops the sealed copy. -/
theorem upsertDraft_seal_invalidation_witness :
    ∃ rec', upsertDraft "t1"
        (some ⟨"11111111111111111", some exC9d₀, some (.obj []), "t0"⟩) exC9d = some rec' ∧
      rec'.draft = some exC9d ∧
      rec'.sealed =
        (if render (sortKeys exC9d) = render (sortKeys exC9d₀) then some (.obj [])
         else none) :=
  upsertDraft_seal_invalidation "t1"
    ⟨"11111111111111111", some exC9d₀, some (.obj []), "t0"⟩ exC9d₀ (.obj []) exC9d
    rfl rfl (by decide)

end Acc
